import Mathlib

/-!
Verification development for the seth Ethereum client library.

Shallow embedding conventions:
* Go `*big.Int` values are `Int`; `*big.Float` / `float64` arithmetic is
  modelled by exact rational arithmetic over `ℚ` (the library only uses these
  floats as arbitrary-precision intermediaries for percentages and metrics);
  the conversions `big.Float.Int(..)`, `big.Float.Int64()` and Go's
  `int(float64)` all round toward zero, modelled by `truncRat`.
* `math.Log10`-based weights (used only inside the newest-first congestion
  strategy) are abstracted as an explicit weight-function parameter
  `weightOf : Nat → ℚ`, standing for `fun d => 1 / log10 (d + 10)`.
* RPC calls are modelled by passing their results in as `Except String _`
  values (error or answer), and a transaction send as a function from the
  sent transaction to `Option String` (`some err` = node rejected the send).
* Go maps are association lists whose key lists are kept `Nodup`; a map
  lookup that misses yields the zero value (`""` for strings), as in Go.
-/

/-- Truncation toward zero of a rational, the rounding used by Go's
`big.Float.Int`, `big.Float.Int64` and `int(float64)` conversions
(`Int.div` is Lean's truncating division; `q.den` is positive). -/
def truncRat (q : ℚ) : Int := Int.tdiv q.num (q.den : Int)

/- Constants of gas_adjuster.go. -/

def Priority_Ultra : String := "ultra"

def Priority_Fast : String := "fast"

def Priority_Standard : String := "standard"

def Priority_Slow : String := "slow"

/-- Modelled from the spec: the file defining the `Priority_Degen` constant is
not among the repository's source files; the spec's priority set names this
priority "degen" (`degen/ultra` row of the priority table), and
`PriorityBasedGasBumpingStrategyFn` switches on it. -/
def Priority_Degen : String := "degen"

def Congestion_Low : String := "low"

def Congestion_Medium : String := "medium"

def Congestion_High : String := "high"

def Congestion_Ultra : String := "ultra"

def CongestionStrategy_Simple : String := "simple"

def CongestionStrategy_NewestFirst : String := "newest_first"

/-- The block-header fields the gas oracle reads (`types.Header`). -/
structure Header where
  number : Nat
  gasUsed : Nat
  gasLimit : Nat
  baseFee : Int
deriving DecidableEq

/-- gas_adjuster.go `calculateTrend`: fraction of consecutive header pairs
whose base fee rose. -/
def calculateTrend (headers : List Header) : ℚ :=
  let totalIncrease : ℚ :=
    ((headers.zip headers.tail).filter (fun p => p.1.baseFee < p.2.baseFee)).length
  totalIncrease / ((headers.length : ℚ) - 1)

/-- gas_adjuster.go `calculateGasUsedRatio`: mean of `gasUsed/gasLimit`. -/
def calculateGasUsedRatio (headers : List Header) : ℚ :=
  let totalRatio : ℚ :=
    headers.foldl (fun acc h => acc + (h.gasUsed : ℚ) / (h.gasLimit : ℚ)) 0
  totalRatio / (headers.length : ℚ)

/-- gas_adjuster.go `calculateSimpleNetworkCongestionMetric`. -/
def calculateSimpleNetworkCongestionMetric (headers : List Header) : ℚ :=
  (calculateTrend headers + calculateGasUsedRatio headers) / 2

/-- Insertion step for the ascending-by-number sort performed by
`slices.SortFunc` in `calculateNewestFirstNetworkCongestionMetric`. -/
def insertByNumber (h : Header) : List Header → List Header
  | [] => [h]
  | h' :: t => if h.number ≤ h'.number then h :: h' :: t else h' :: insertByNumber h t

def sortByNumber (headers : List Header) : List Header :=
  headers.foldr insertByNumber []

/-- gas_adjuster.go `calculateNewestFirstNetworkCongestionMetric`. `weightOf`
abstracts the transcendental weight `1 / log10 (distance + 10)` applied to the
block at the given distance from the newest block. -/
def calculateNewestFirstNetworkCongestionMetric (weightOf : Nat → ℚ)
    (headers : List Header) : ℚ :=
  let sorted := sortByNumber headers
  let n := sorted.length
  let sums := (sorted.enum).foldl
    (fun (acc : ℚ × ℚ) p =>
      let congestion : ℚ := (p.2.gasUsed : ℚ) / (p.2.gasLimit : ℚ)
      let w := weightOf (n - 1 - p.1)
      (acc.1 + congestion * w, acc.2 + w))
    (0, 0)
  if sums.2 = 0 then 0 else sums.1 / sums.2

/-- gas_adjuster.go `CalculateNetworkCongestionMetric`, starting from the
point where the block headers have been gathered: `headers` is the slice the
concurrent fetch produced (the newest block plus every header fetched without
error), and `blocksNumber` the number of headers requested.  Fetching fewer
than `int(float64(blocksNumber) * 0.8)` headers is an error. -/
def CalculateNetworkCongestionMetric (weightOf : Nat → ℚ) (blocksNumber : Nat)
    (headers : List Header) (strategy : String) : Except String ℚ :=
  let minBlockCount := truncRat ((blocksNumber : ℚ) * (8 / 10))
  if (headers.length : Int) < minBlockCount then
    Except.error
      ("Failed to fetch enough block headers for congestion calculation. Wanted at least "
        ++ toString minBlockCount ++ ", got " ++ toString headers.length)
  else if strategy = CongestionStrategy_Simple then
    Except.ok (calculateSimpleNetworkCongestionMetric headers)
  else if strategy = CongestionStrategy_NewestFirst then
    Except.ok (calculateNewestFirstNetworkCongestionMetric weightOf headers)
  else
    Except.error ("Unknown congestion strategy: " ++ strategy)

/-- gas_adjuster.go `getAdjustmentFactor`. -/
def getAdjustmentFactor (priority : String) : Except String ℚ :=
  if priority = Priority_Ultra then Except.ok (15 / 10)
  else if priority = Priority_Fast then Except.ok (12 / 10)
  else if priority = Priority_Standard then Except.ok 1
  else if priority = Priority_Slow then Except.ok (8 / 10)
  else Except.error ("Unknown priority: " ++ priority)

/-- gas_adjuster.go `getBufferPercent`. -/
def getBufferPercent (congestionClassification : String) : Except String ℚ :=
  if congestionClassification = Congestion_Low then Except.ok (5 / 100)
  else if congestionClassification = Congestion_Medium then Except.ok (10 / 100)
  else if congestionClassification = Congestion_High then Except.ok (15 / 100)
  else if congestionClassification = Congestion_Ultra then Except.ok (20 / 100)
  else Except.error ("Unknown congestion classification: " ++ congestionClassification)

/-- gas_adjuster.go `classifyCongestion`. -/
def classifyCongestion (congestionMetric : ℚ) : String :=
  if congestionMetric < 33 / 100 then Congestion_Low
  else if congestionMetric ≤ 66 / 100 then Congestion_Medium
  else if congestionMetric ≤ 75 / 100 then Congestion_High
  else Congestion_Ultra

/-- gas_adjuster.go `GetSuggestedLegacyFees`, from the point where the
congestion metric value is in hand (everything after the
`CalculateNetworkCongestionMetric` call): congestion adjustment, buffer, and
the max-allowed-tx-cost cap.  `big.Int.Div` is Euclidean division
(`Int.ediv`). -/
def suggestedLegacyFeeAfterMetric (suggested : Int) (priority : String)
    (congestionMetric : ℚ) (gasLimit : Nat) (maxAllowedTxCostWei : Int) :
    Except String Int :=
  match getAdjustmentFactor priority with
  | Except.error e => Except.error e
  | Except.ok adjustmentFactor =>
    let congestionAdjustmentInt :=
      truncRat ((congestionMetric * adjustmentFactor) * (suggested : ℚ))
    let adjusted := suggested + congestionAdjustmentInt
    match getBufferPercent (classifyCongestion congestionMetric) with
    | Except.error e => Except.error e
    | Except.ok bufferPercent =>
      let bufferInt := truncRat ((adjusted : ℚ) * bufferPercent)
      let adjustedGasPrice := adjusted + bufferInt
      let maxPossibleTxCost := adjustedGasPrice * (gasLimit : Int)
      if maxAllowedTxCostWei < maxPossibleTxCost then
        Except.ok (Int.ediv maxAllowedTxCostWei (gasLimit : Int))
      else
        Except.ok adjustedGasPrice

/-- gas_adjuster.go `GetSuggestedLegacyFees`: suggested price from the node,
adjustment factor for the priority, congestion metric over the fetched
headers (newest-first strategy), then the fee computation.  Each failing step
returns its error, exactly as the Go early returns do. -/
def GetSuggestedLegacyFees (suggestGasPrice : Except String Int)
    (weightOf : Nat → ℚ) (gasEstimationBlocks : Nat) (headers : List Header)
    (gasLimit : Nat) (maxAllowedTxCostWei : Int) (priority : String) :
    Except String Int :=
  match suggestGasPrice with
  | Except.error e => Except.error e
  | Except.ok suggested =>
    match getAdjustmentFactor priority with
    | Except.error e => Except.error e
    | Except.ok _ =>
      match CalculateNetworkCongestionMetric weightOf gasEstimationBlocks headers
          CongestionStrategy_NewestFirst with
      | Except.error e => Except.error e
      | Except.ok congestionMetric =>
        suggestedLegacyFeeAfterMetric suggested priority congestionMetric
          gasLimit maxAllowedTxCostWei

/-- The experiment branch of `GetSuggestedEIP1559Fees` (fee equalizer):
`magDiff` abstracts `calculateMagnitudeDifference`'s integer result on the
historical base fee and the chosen tip.  Returns the possibly rewritten
`(baseFee64, suggestedGasTip)` pair. -/
def feeEqualierAdjust (magDiff : ℚ → ℚ → Int) (baseFee64 : ℚ)
    (suggestedGasTip : Int) : ℚ × Int :=
  let d := magDiff baseFee64 (suggestedGasTip : ℚ)
  if d = 0 then
    if baseFee64 = 0 then ((suggestedGasTip : ℚ), suggestedGasTip)
    else (baseFee64, truncRat baseFee64)
  else if d < 3 then ((suggestedGasTip : ℚ), suggestedGasTip)
  else if 3 < d then (baseFee64, truncRat baseFee64)
  else (baseFee64, suggestedGasTip)

/-- gas_adjuster.go `GetSuggestedEIP1559Fees`.  `suggestGasTip` is the node's
`SuggestGasTipCap` answer, `historical` the `HistoricalFeeData` result
`(baseFee64, historicalSuggestedTip64)`, `feeEqualierEnabled` the
`Experiment_Eip1559FeeEqualier` flag and `magDiff` the integer part of
`calculateMagnitudeDifference`.  Returns `(maxFeeCap, adjustedTipCap)`. -/
def GetSuggestedEIP1559Fees (suggestGasTip : Except String Int)
    (historical : Except String (ℚ × ℚ)) (feeEqualierEnabled : Bool)
    (magDiff : ℚ → ℚ → Int) (weightOf : Nat → ℚ) (gasEstimationBlocks : Nat)
    (headers : List Header) (gasLimit : Nat) (maxAllowedTxCostWei : Int)
    (priority : String) : Except String (Int × Int) :=
  match suggestGasTip with
  | Except.error e => Except.error e
  | Except.ok currentGasTip =>
    match historical with
    | Except.error e => Except.error e
    | Except.ok hist =>
      let baseFee64 := hist.1
      let historicalSuggestedTip64 := hist.2
      let suggestedGasTip :=
        if currentGasTip < truncRat historicalSuggestedTip64 then
          truncRat historicalSuggestedTip64
        else currentGasTip
      let eq :=
        if feeEqualierEnabled then feeEqualierAdjust magDiff baseFee64 suggestedGasTip
        else (baseFee64, suggestedGasTip)
      let baseFee64 := eq.1
      let suggestedGasTip := eq.2
      match getAdjustmentFactor priority with
      | Except.error e => Except.error e
      | Except.ok adjustmentFactor =>
        match CalculateNetworkCongestionMetric weightOf gasEstimationBlocks headers
            CongestionStrategy_NewestFirst with
        | Except.error e => Except.error e
        | Except.ok congestionMetric =>
          let congestionAdjustmentInt :=
            truncRat ((congestionMetric * adjustmentFactor) * (suggestedGasTip : ℚ))
          let adjustedTipCap := suggestedGasTip + congestionAdjustmentInt
          let adjustedBaseFee := truncRat baseFee64 + congestionAdjustmentInt
          let rawMaxFeeCap := adjustedBaseFee + adjustedTipCap
          match getBufferPercent (classifyCongestion congestionMetric) with
          | Except.error e => Except.error e
          | Except.ok bufferPercent =>
            let bufferInt := truncRat ((rawMaxFeeCap : ℚ) * bufferPercent)
            let maxProposedFeeCap := rawMaxFeeCap + bufferInt
            let maxPossibleTxCost := maxProposedFeeCap * (gasLimit : Int)
            if maxAllowedTxCostWei < maxPossibleTxCost then
              let maxFeeCap := Int.ediv maxAllowedTxCostWei (gasLimit : Int)
              let changeRatio : ℚ := (maxFeeCap : ℚ) / (rawMaxFeeCap : ℚ)
              let newAdjustedTipCap := truncRat ((adjustedTipCap : ℚ) * changeRatio)
              Except.ok (maxFeeCap, newAdjustedTipCap)
            else
              Except.ok (maxProposedFeeCap, adjustedTipCap)

theorem truncRat_intCast (n : Int) : truncRat ((n : ℚ)) = n := by
  simp [truncRat, Rat.num_intCast, Rat.den_intCast]

theorem truncRat_zero : truncRat 0 = 0 := by
  simpa using truncRat_intCast 0

/-- Evaluation helper: `truncRat` at a concrete rational whose numerator,
denominator and truncated quotient are supplied. -/
theorem truncRat_concrete (q : ℚ) (n : Int) (d : Nat) (r : Int)
    (hn : q.num = n) (hd : q.den = d) (hr : Int.tdiv n (d : Int) = r) :
    truncRat q = r := by
  rw [truncRat, hn, hd, hr]

/- LFU block cache (block_stats / LFUBlockCache source file).  The Go map
`map[int64]*cacheItem` keyed by block number is modelled as a list of entries
whose key list stays `Nodup`; a `cacheItem` holds the block (represented by
its `NumberU64()` value, the only field the cache logic reads) and its
frequency. -/

/-- Go's `int(^uint(0) >> 1)`, the initial `leastFreq` of `evict`. -/
def goMaxInt : Nat := 2 ^ 63 - 1

/-- Go's `^uint64(0)`, the initial `oldestBlockNumber` of `evict`. -/
def goMaxUint64 : Nat := 2 ^ 64 - 1

structure CacheEntry where
  number : Nat
  freq : Nat
deriving DecidableEq

structure LFUBlockCache where
  capacity : Nat
  cache : List CacheEntry
deriving DecidableEq

def NewLFUBlockCache (capacity : Nat) : LFUBlockCache :=
  { capacity := capacity, cache := [] }

/-- `LFUBlockCache.Get`: a hit increments the entry's frequency. -/
def LFUBlockCache.Get (c : LFUBlockCache) (blockNumber : Nat) :
    LFUBlockCache × Bool :=
  if c.cache.any (fun e => e.number == blockNumber) then
    ({ c with cache := c.cache.map (fun e =>
        if e.number == blockNumber then { e with freq := e.freq + 1 } else e) },
      true)
  else (c, false)

/-- One step of `evict`'s loop over the map: the accumulator is
`(leastFreq, evictKey, oldestBlockNumber)`.  The Go map's iteration order is
unspecified; this model iterates in the list's order (the final target is
order-independent whenever every frequency is below `goMaxInt`). -/
def evictFold (acc : Nat × Nat × Nat) (e : CacheEntry) : Nat × Nat × Nat :=
  if e.freq < acc.1 then (e.freq, e.number, e.number)
  else if e.freq = acc.1 ∧ e.number < acc.2.2 then (acc.1, e.number, e.number)
  else acc

/-- The key `evict` deletes: least frequency, ties broken by lowest block
number, starting from `leastFreq = maxInt`, `evictKey = 0`,
`oldestBlockNumber = maxUint64`. -/
def evictTarget (entries : List CacheEntry) : Nat :=
  (entries.foldl evictFold (goMaxInt, 0, goMaxUint64)).2.1

/-- `LFUBlockCache.evict`: `delete(c.cache, evictKey)` — removes the computed
key (a no-op when the key is absent, as for Go's `delete`). -/
def LFUBlockCache.evict (c : LFUBlockCache) : LFUBlockCache :=
  { c with cache := c.cache.filter (fun e => e.number != evictTarget c.cache) }

/-- `LFUBlockCache.Set` for a non-nil block: refresh the entry (frequency + 1)
when present; otherwise evict when `len(cache) >= capacity`, then insert with
frequency 1. -/
def LFUBlockCache.Set (c : LFUBlockCache) (blockNumber : Nat) : LFUBlockCache :=
  if c.cache.any (fun e => e.number == blockNumber) then
    { c with cache := c.cache.map (fun e =>
        if e.number == blockNumber then { number := blockNumber, freq := e.freq + 1 }
        else e) }
  else
    let c' := if c.capacity ≤ c.cache.length then c.evict else c
    { c' with cache := c'.cache ++ [{ number := blockNumber, freq := 1 }] }

/-- A client-visible cache operation (the cache's public surface). -/
inductive CacheOp where
  | get (n : Nat)
  | set (n : Nat)
deriving DecidableEq

def applyCacheOp (c : LFUBlockCache) : CacheOp → LFUBlockCache
  | CacheOp.get n => (c.Get n).1
  | CacheOp.set n => c.Set n

def runCacheOps (c : LFUBlockCache) (ops : List CacheOp) : LFUBlockCache :=
  ops.foldl applyCacheOp c

/- retry.go: gas-bump strategies and `bumpGasOnTimeout`.

A `*big.Int` argument is mutable in Go; a strategy is therefore modelled as
`Int → Int × Int`, mapping the argument's value to `(returned value, value
the caller's big.Int holds after the call)`. -/

/-- retry.go `NoOpGasBumpStrategyFn`: returns its argument untouched. -/
def NoOpGasBumpStrategyFn : Int → Int × Int :=
  fun gasPrice => (gasPrice, gasPrice)

/-- `PriorityBasedGasBumpingStrategyFn`: degen doubles the fee in place via
`gasPrice.Mul(gasPrice, 2)` (mutating the caller's big.Int); fast, standard
and slow build a fresh big.Int from the float-scaled value (×1.5, ×1.15,
×1.05, truncated toward zero by `Int64()`); unknown priorities return the
argument unchanged. -/
def PriorityBasedGasBumpingStrategyFn (priority : String) : Int → Int × Int :=
  if priority = Priority_Degen then
    fun gasPrice => (gasPrice * 2, gasPrice * 2)
  else if priority = Priority_Fast then
    fun gasPrice => (truncRat ((gasPrice : ℚ) * (15 / 10)), gasPrice)
  else if priority = Priority_Standard then
    fun gasPrice => (truncRat ((gasPrice : ℚ) * (115 / 100)), gasPrice)
  else if priority = Priority_Slow then
    fun gasPrice => (truncRat ((gasPrice : ℚ) * (105 / 100)), gasPrice)
  else
    fun gasPrice => (gasPrice, gasPrice)

/-- The fee fields of a transaction, determining its type: `LegacyTxType`,
`DynamicFeeTxType`, or any other type code. -/
inductive FeeFields where
  | legacy (gasPrice : Int)
  | dynamic (gasFeeCap gasTipCap : Int)
  | other (typeCode : Nat)
deriving DecidableEq

/-- A signed transaction: the payload fields `bumpGasOnTimeout` copies, plus
the key that signed it (keys and addresses are represented by `Nat`; the
signer recovery `types.Sender` is `addrOfKey` applied to the signing key). -/
structure SignedTx where
  nonce : Nat
  toAddr : Option Nat
  value : Int
  gas : Nat
  data : List Nat
  fees : FeeFields
  signedBy : Nat
deriving DecidableEq

/-- The client state `bumpGasOnTimeout` reads: parallel `Addresses` and
`PrivateKeys` arrays and the configured bump strategy (used here as a pure
value function, since `tx.GasPrice()` etc. hand the strategy a copy). -/
structure BumpClient where
  addresses : List Nat
  privateKeys : List Nat
  gasBumpStrategyFn : Int → Int

/-- The `(tx, err)` pair `bumpGasOnTimeout` returns, by case. -/
inductive BumpOutcome where
  | success (replacement : SignedTx)
  | confirmed (original : SignedTx)
  | sendRejected (original : SignedTx) (errMsg : String)
  | failure (errMsg : String)
deriving DecidableEq

/-- The Go loop locating the sender among `client.Addresses` (first index
whose address equals the recovered sender, `-1` = `none` when absent). -/
def findSenderIdx (addresses : List Nat) (sender : Nat) : Option Nat :=
  match addresses with
  | [] => none
  | a :: rest =>
    if a = sender then some 0 else (findSenderIdx rest sender).map (fun j => j + 1)

/-- retry.go `bumpGasOnTimeout`.  `pendingCheck` is the
`TransactionByHash` answer (pending flag or error), `sendResult` the node's
answer to `SendTransaction` (`some msg` = rejected).  On a rejected send the
ORIGINAL transaction is returned with the error; the replacement is returned
only when the node accepted it. -/
def bumpGasOnTimeout (addrOfKey : Nat → Nat) (client : BumpClient)
    (pendingCheck : Except String Bool) (sendResult : SignedTx → Option String)
    (tx : SignedTx) : BumpOutcome :=
  match pendingCheck with
  | Except.error e => BumpOutcome.failure e
  | Except.ok isPending =>
    if !isPending then BumpOutcome.confirmed tx
    else
      let sender := addrOfKey tx.signedBy
      match findSenderIdx client.addresses sender with
      | none =>
        BumpOutcome.failure
          ("sender address '" ++ toString sender ++ "' not found in loaded private keys")
      | some senderPkIdx =>
        let privateKey := client.privateKeys.getD senderPkIdx 0
        match tx.fees with
        | FeeFields.legacy gasPrice =>
          let replacementTx : SignedTx :=
            { tx with fees := FeeFields.legacy (client.gasBumpStrategyFn gasPrice),
                      signedBy := privateKey }
          match sendResult replacementTx with
          | some e => BumpOutcome.sendRejected tx e
          | none => BumpOutcome.success replacementTx
        | FeeFields.dynamic gasFeeCap gasTipCap =>
          let replacementTx : SignedTx :=
            { tx with fees := FeeFields.dynamic (client.gasBumpStrategyFn gasFeeCap)
                        (client.gasBumpStrategyFn gasTipCap),
                      signedBy := privateKey }
          match sendResult replacementTx with
          | some e => BumpOutcome.sendRejected tx e
          | none => BumpOutcome.success replacementTx
        | FeeFields.other typeCode =>
          BumpOutcome.failure ("unsupported tx type " ++ toString typeCode)

/-- The fee transformation of the replacement transaction, per tx family
(none = unsupported type). -/
def bumpFees (strat : Int → Int) : FeeFields → Option FeeFields
  | FeeFields.legacy gasPrice => some (FeeFields.legacy (strat gasPrice))
  | FeeFields.dynamic gasFeeCap gasTipCap =>
    some (FeeFields.dynamic (strat gasFeeCap) (strat gasTipCap))
  | FeeFields.other _ => none

/- onepass.go tracer: contract-map lookups and address naming.  A
`ContractMap` is Go's `map[string]string` from lowercase address to contract
name: an association list looked up with the map's zero value `""` on a
miss. -/

def ContractMap := List (String × String)

/-- Go map read `c[k]` with zero value `""`. -/
def contractMapRead (c : ContractMap) (k : String) : String :=
  match c.find? (fun p => p.1 == k) with
  | some p => p.2
  | none => ""

/-- onepass.go `ContractMap.IsKnownAddress`. -/
def ContractMap.IsKnownAddress (c : ContractMap) (addr : String) : Bool :=
  contractMapRead c addr.toLower != ""

/-- onepass.go `ContractMap.GetContractName`. -/
def ContractMap.GetContractName (c : ContractMap) (addr : String) : String :=
  contractMapRead c addr.toLower

/-- The tracer fields address naming reads: the client's key addresses (as
`a.Hex()` strings) and the contract map. -/
structure Tracer where
  addresses : List String
  contractAddressToNameMap : ContractMap

/-- onepass.go `Tracer.isOwnAddress`: compares each key address lowercased
against the given address string. -/
def Tracer.isOwnAddress (t : Tracer) (addr : String) : Bool :=
  t.addresses.any (fun a => a.toLower == addr)

/-- onepass.go `Tracer.getHumanReadableAddressName`. -/
def Tracer.getHumanReadableAddressName (t : Tracer) (address : String) : String :=
  if t.contractAddressToNameMap.IsKnownAddress address then
    t.contractAddressToNameMap.GetContractName address
  else if t.isOwnAddress address then "you"
  else "unknown"

/-- The spec's account of step 7 of the tracing pipeline, stated from its own
words: the name is the contract map's entry when the lookup yields one,
otherwise "you" for the core's own keys, otherwise "unknown".  (The Go map
lookup yields an entry exactly when the stored name is nonempty.) -/
def specHumanReadableName (knownName : Option String) (own : Bool) : String :=
  match knownName with
  | some n => n
  | none => if own then "you" else "unknown"

/-- The contract-map lookup as the spec sees it: `some name` when the address
is known to the map, `none` otherwise. -/
def specContractMapLookup (c : ContractMap) (addr : String) : Option String :=
  if contractMapRead c addr.toLower == "" then none
  else some (contractMapRead c addr.toLower)

/- client.go `TransferETHFromKey`. -/

/-- How a `TransferETHFromKey` call ends in the model: the
"failed to load private key" error from the guard, a Go runtime panic from an
out-of-range slice index, or reaching the sign-and-send path with the chosen
key index (RPC steps modelled as succeeding). -/
inductive TransferOutcome where
  | errNoKeyLoaded (requestedKey : Int)
  | panicked
  | sent (keyIdx : Nat)
deriving DecidableEq

/-- client.go `TransferETHFromKey`, control flow of the key-number handling:
the guard `fromKeyNum > len(m.PrivateKeys) || fromKeyNum > len(m.Addresses)`
returns the `ErrNoKeyLoaded` error; past it, `m.Addresses[fromKeyNum]` and
`m.PrivateKeys[fromKeyNum]` panic whenever `fromKeyNum` is negative or not
below the slice length. -/
def TransferETHFromKey (numPrivateKeys numAddresses : Nat) (fromKeyNum : Int) :
    TransferOutcome :=
  if (numPrivateKeys : Int) < fromKeyNum ∨ (numAddresses : Int) < fromKeyNum then
    TransferOutcome.errNoKeyLoaded fromKeyNum
  else if fromKeyNum < 0 ∨ (numAddresses : Int) ≤ fromKeyNum then
    TransferOutcome.panicked
  else if (numPrivateKeys : Int) ≤ fromKeyNum then
    TransferOutcome.panicked
  else
    TransferOutcome.sent fromKeyNum.toNat

/-- Whether an `Except` computation succeeded. -/
def exceptIsOk {ε α : Type} : Except ε α → Bool
  | Except.ok _ => true
  | Except.error _ => false

/-- C10: TransferETHFromKey's guard `fromKeyNum > len(PrivateKeys) ||
fromKeyNum > len(Addresses)` misses `fromKeyNum = len` and negative key
numbers: with one loaded key, `fromKeyNum = 1` (and `fromKeyNum = -1`) passes
the guard and the slice index `m.Addresses[fromKeyNum]` panics, while only
`fromKeyNum = 2` and above reach the "failed to load private key" error the
claim describes for every out-of-range key number. -/
theorem claim_C10_transfer_guard_off_by_one :
    TransferETHFromKey 1 1 1 = TransferOutcome.panicked ∧
    TransferETHFromKey 1 1 (-1) = TransferOutcome.panicked ∧
    TransferETHFromKey 1 1 2 = TransferOutcome.errNoKeyLoaded 2 ∧
    TransferETHFromKey 1 1 0 = TransferOutcome.sent 0 := by decide

/-- C7, counterexample: the degen strategy runs `gasPrice.Mul(gasPrice, 2)`,
which stores the doubled value in the caller's big.Int: after the call on a
fee holding 100 the argument holds 200, not 100 — the strategy is not free of
mutation as claimed. -/
theorem claim_C7_counterexample :
    (PriorityBasedGasBumpingStrategyFn Priority_Degen 100).2 = 200 ∧
    ¬ (PriorityBasedGasBumpingStrategyFn Priority_Degen 100).2 = 100 := by
  constructor <;> simp [PriorityBasedGasBumpingStrategyFn, Priority_Degen]

/-- C7 amended: each built-in strategy maps equal fee values to equal scaled
results (slow ×1.05, standard ×1.15, fast ×1.5, degen ×2, all truncated
toward zero where floats are involved), and the slow, standard, fast and
no-op strategies leave the caller's fee value untouched; the degen strategy
alone mutates the caller's big.Int, which holds the doubled value after the
call. -/
theorem claim_C7_amended (g : Int) :
    (NoOpGasBumpStrategyFn g).1 = g ∧ (NoOpGasBumpStrategyFn g).2 = g ∧
    (PriorityBasedGasBumpingStrategyFn Priority_Slow g).1 =
        truncRat ((g : ℚ) * (105 / 100)) ∧
    (PriorityBasedGasBumpingStrategyFn Priority_Slow g).2 = g ∧
    (PriorityBasedGasBumpingStrategyFn Priority_Standard g).1 =
        truncRat ((g : ℚ) * (115 / 100)) ∧
    (PriorityBasedGasBumpingStrategyFn Priority_Standard g).2 = g ∧
    (PriorityBasedGasBumpingStrategyFn Priority_Fast g).1 =
        truncRat ((g : ℚ) * (15 / 10)) ∧
    (PriorityBasedGasBumpingStrategyFn Priority_Fast g).2 = g ∧
    (PriorityBasedGasBumpingStrategyFn Priority_Degen g).1 = g * 2 ∧
    (PriorityBasedGasBumpingStrategyFn Priority_Degen g).2 = g * 2 := by
  refine ⟨rfl, rfl, ?_, ?_, ?_, ?_, ?_, ?_, ?_, ?_⟩ <;>
    simp [PriorityBasedGasBumpingStrategyFn, Priority_Degen, Priority_Fast,
      Priority_Standard, Priority_Slow]

/-- C9: the human-readable name of an address in a decoded call frame is the
contract map's name when the (lowercased) address has a nonempty entry there,
else "you" when the address is one of the client's own key addresses, else
"unknown" — the tracer's naming agrees with the spec's description. -/
theorem claim_C9_address_naming (t : Tracer) (address : String) :
    t.getHumanReadableAddressName address =
      specHumanReadableName
        (specContractMapLookup t.contractAddressToNameMap address)
        (t.isOwnAddress address) := by
  unfold Tracer.getHumanReadableAddressName specHumanReadableName
    specContractMapLookup ContractMap.IsKnownAddress ContractMap.GetContractName
  by_cases h : contractMapRead t.contractAddressToNameMap address.toLower = ""
  · simp [h]
  · simp [h]

/-- C5: the congestion classes are exactly low below 0.33, medium on
[0.33, 0.66], high on (0.66, 0.75], ultra above 0.75, and their buffers are
0.05, 0.10, 0.15 and 0.20. -/
theorem claim_C5_classification (m : ℚ) :
    (classifyCongestion m = Congestion_Low ↔ m < 33 / 100) ∧
    (classifyCongestion m = Congestion_Medium ↔ 33 / 100 ≤ m ∧ m ≤ 66 / 100) ∧
    (classifyCongestion m = Congestion_High ↔ 66 / 100 < m ∧ m ≤ 75 / 100) ∧
    (classifyCongestion m = Congestion_Ultra ↔ 75 / 100 < m) ∧
    getBufferPercent Congestion_Low = Except.ok (5 / 100) ∧
    getBufferPercent Congestion_Medium = Except.ok (10 / 100) ∧
    getBufferPercent Congestion_High = Except.ok (15 / 100) ∧
    getBufferPercent Congestion_Ultra = Except.ok (20 / 100) := by
  have e1 : getBufferPercent Congestion_Low = Except.ok (5 / 100) := by
    simp [getBufferPercent]
  have e2 : getBufferPercent Congestion_Medium = Except.ok (10 / 100) := by
    simp [getBufferPercent, Congestion_Medium, Congestion_Low]
  have e3 : getBufferPercent Congestion_High = Except.ok (15 / 100) := by
    simp [getBufferPercent, Congestion_High, Congestion_Medium, Congestion_Low]
  have e4 : getBufferPercent Congestion_Ultra = Except.ok (20 / 100) := by
    simp [getBufferPercent, Congestion_Ultra, Congestion_High, Congestion_Medium,
      Congestion_Low]
  unfold classifyCongestion
  refine ⟨?_, ?_, ?_, ?_, e1, e2, e3, e4⟩ <;>
    split_ifs with h1 h2 h3 <;>
      constructor <;>
        intro h <;>
          first
            | rfl
            | linarith
            | (exact absurd rfl (by simp [Congestion_Low, Congestion_Medium,
                Congestion_High, Congestion_Ultra] at h ⊢))
            | (constructor <;> linarith)
            | (exfalso; simp [Congestion_Low, Congestion_Medium, Congestion_High,
                Congestion_Ultra] at h)

/-- C3, counterexample: requesting 10 block headers and fetching only 2
(fewer than the 80 % minimum of 8) makes `GetSuggestedLegacyFees` return an
error — it does not proceed and return a fee computed with the adjustment
factor only. -/
theorem claim_C3_counterexample :
    exceptIsOk (GetSuggestedLegacyFees (Except.ok 100) (fun _ => 1) 10
      [{ number := 10, gasUsed := 0, gasLimit := 1, baseFee := 0 },
       { number := 9, gasUsed := 0, gasLimit := 1, baseFee := 0 }]
      1 1000000 Priority_Standard) = false := by
  have h8 : truncRat (((10 : Nat) : ℚ) * (8 / 10)) = 8 := by
    have h : (((10 : Nat) : ℚ) * (8 / 10)) = ((8 : Int) : ℚ) := by push_cast; norm_num
    rw [h, truncRat_intCast]
  have hmetric : CalculateNetworkCongestionMetric (fun _ => 1) 10
      [{ number := 10, gasUsed := 0, gasLimit := 1, baseFee := 0 },
       { number := 9, gasUsed := 0, gasLimit := 1, baseFee := 0 }]
      CongestionStrategy_NewestFirst =
      Except.error
        ("Failed to fetch enough block headers for congestion calculation. Wanted at least "
          ++ toString (truncRat (((10 : Nat) : ℚ) * (8 / 10)))
          ++ ", got "
          ++ toString ([{ number := 10, gasUsed := 0, gasLimit := 1, baseFee := 0 },
              { number := 9, gasUsed := 0, gasLimit := 1, baseFee := 0 }] : List Header).length) := by
    apply if_pos
    rw [h8]
    norm_num
  simp only [GetSuggestedLegacyFees, getAdjustmentFactor, Priority_Standard,
    Priority_Ultra, Priority_Fast, hmetric]
  rfl

/-- C3 amended: when fewer than 80 % of the requested block headers are
fetched, `CalculateNetworkCongestionMetric` fails, and both
`GetSuggestedLegacyFees` and `GetSuggestedEIP1559Fees` propagate that failure
and return an error instead of a fee — the congestion metric's
unavailability is not degraded around. -/
theorem claim_C3_amended (suggest currentTip : Int) (weightOf : Nat → ℚ)
    (blocksNumber : Nat) (headers : List Header) (gasLimit : Nat)
    (maxCost : Int) (priority : String) (af : ℚ) (hist : ℚ × ℚ)
    (feeEq : Bool) (magDiff : ℚ → ℚ → Int)
    (haf : getAdjustmentFactor priority = Except.ok af)
    (hshort : (headers.length : Int) < truncRat ((blocksNumber : ℚ) * (8 / 10))) :
    exceptIsOk (GetSuggestedLegacyFees (Except.ok suggest) weightOf blocksNumber
        headers gasLimit maxCost priority) = false ∧
    exceptIsOk (GetSuggestedEIP1559Fees (Except.ok currentTip) (Except.ok hist)
        feeEq magDiff weightOf blocksNumber headers gasLimit maxCost priority) =
      false := by
  have hmetric : CalculateNetworkCongestionMetric weightOf blocksNumber headers
      CongestionStrategy_NewestFirst =
      Except.error
        ("Failed to fetch enough block headers for congestion calculation. Wanted at least "
          ++ toString (truncRat ((blocksNumber : ℚ) * (8 / 10)))
          ++ ", got " ++ toString headers.length) := by
    apply if_pos hshort
  constructor
  · simp only [GetSuggestedLegacyFees, haf, hmetric, exceptIsOk]
  · simp only [GetSuggestedEIP1559Fees, haf, hmetric, exceptIsOk]

/-- C3 witness: requesting 10 headers with 1 fetched, slow priority: both fee
suggestions return errors. -/
theorem claim_C3_witness :
    exceptIsOk (GetSuggestedLegacyFees (Except.ok 100) (fun _ => 1) 10
        [{ number := 10, gasUsed := 0, gasLimit := 1, baseFee := 0 }]
        1 1000000 Priority_Slow) = false ∧
    exceptIsOk (GetSuggestedEIP1559Fees (Except.ok 7) (Except.ok (1, 1)) false
        (fun _ _ => 0) (fun _ => 1) 10
        [{ number := 10, gasUsed := 0, gasLimit := 1, baseFee := 0 }]
        1 1000000 Priority_Slow) = false :=
  claim_C3_amended 100 7 (fun _ => 1) 10
    [{ number := 10, gasUsed := 0, gasLimit := 1, baseFee := 0 }]
    1 1000000 Priority_Slow (8 / 10) (1, 1) false (fun _ _ => 0)
    (by simp [getAdjustmentFactor, Priority_Slow, Priority_Standard,
      Priority_Ultra, Priority_Fast])
    (by
      have h : (((10 : Nat) : ℚ) * (8 / 10)) = ((8 : Int) : ℚ) := by
        push_cast; norm_num
      rw [h, truncRat_intCast]
      norm_num)

/-- What C4 claims the zero-congestion legacy fee to be, stated from the
claim's words: the node-suggested gas price times the priority's adjustment
factor, increased by the low-congestion 5 % buffer. -/
def claimedLegacyFeeAtZeroMetric (suggested : Int) (af : ℚ) : Int :=
  let base := truncRat ((suggested : ℚ) * af)
  base + truncRat ((base : ℚ) * (5 / 100))

/-- C4 amended: when the congestion metric is 0, the (pre-cap) legacy fee is
the node-suggested gas price plus the low-congestion 5 % buffer on it; the
priority's adjustment factor contributes nothing, because it only enters the
fee multiplied by the metric. -/
theorem claim_C4_amended (priority : String) (af : ℚ) (suggested : Int)
    (gasLimit : Nat) (maxCost : Int)
    (haf : getAdjustmentFactor priority = Except.ok af)
    (hcap : (suggested + truncRat ((suggested : ℚ) * (5 / 100))) * (gasLimit : Int)
        ≤ maxCost) :
    suggestedLegacyFeeAfterMetric suggested priority 0 gasLimit maxCost =
      Except.ok (suggested + truncRat ((suggested : ℚ) * (5 / 100))) := by
  have hzero : truncRat (((0 : ℚ) * af) * (suggested : ℚ)) = 0 := by
    have h : (((0 : ℚ) * af) * (suggested : ℚ)) = ((0 : Int) : ℚ) := by push_cast; ring
    rw [h, truncRat_intCast]
  have hlow : classifyCongestion 0 = Congestion_Low := by
    norm_num [classifyCongestion]
  simp only [suggestedLegacyFeeAfterMetric, haf, hzero, hlow, getBufferPercent,
    eq_self_iff_true, if_true, add_zero]
  rw [if_neg (not_lt.mpr hcap)]

/-- C4 witness: standard priority (factor 1), suggested price 100, no cap:
the fee is 100 plus its 5 % buffer. -/
theorem claim_C4_witness :
    suggestedLegacyFeeAfterMetric 100 Priority_Standard 0 1 1000000000 =
      Except.ok (100 + truncRat (((100 : Int) : ℚ) * (5 / 100))) :=
  claim_C4_amended Priority_Standard 1 100 1 1000000000
    (by simp [getAdjustmentFactor, Priority_Standard, Priority_Ultra, Priority_Fast])
    (by
      have he : (((100 : Int) : ℚ) * (5 / 100)) = ((5 : Int) : ℚ) := by
        push_cast; norm_num
      rw [he, truncRat_intCast]
      norm_num)

/-- C4, counterexample: with congestion metric 0, ultra priority (adjustment
factor 1.5) and suggested price 200, the code returns 200 + 5 % = 210 — not
the claim's 200 × 1.5 + 5 % = 315: the adjustment factor never multiplies the
suggested price on its own, it is multiplied by the metric, which is 0. -/
theorem claim_C4_counterexample :
    suggestedLegacyFeeAfterMetric 200 Priority_Ultra 0 1 1000000000 =
      Except.ok 210 ∧
    claimedLegacyFeeAtZeroMetric 200 (15 / 10) = 315 ∧
    ¬ (suggestedLegacyFeeAfterMetric 200 Priority_Ultra 0 1 1000000000 =
        Except.ok (claimedLegacyFeeAtZeroMetric 200 (15 / 10))) := by
  have h10 : truncRat (((200 : Int) : ℚ) * (5 / 100)) = 10 := by
    have h : (((200 : Int) : ℚ) * (5 / 100)) = ((10 : Int) : ℚ) := by
      push_cast; norm_num
    rw [h, truncRat_intCast]
  have hmodel : suggestedLegacyFeeAfterMetric 200 Priority_Ultra 0 1 1000000000 =
      Except.ok 210 := by
    have hzero : truncRat (((0 : ℚ) * (15 / 10)) * ((200 : Int) : ℚ)) = 0 := by
      have h : (((0 : ℚ) * (15 / 10)) * ((200 : Int) : ℚ)) = ((0 : Int) : ℚ) := by
        push_cast; ring
      rw [h, truncRat_intCast]
    have hlow : classifyCongestion 0 = Congestion_Low := by
      norm_num [classifyCongestion]
    have haf : getAdjustmentFactor Priority_Ultra = Except.ok (15 / 10) := by
      simp [getAdjustmentFactor]
    simp only [suggestedLegacyFeeAfterMetric, haf, hzero, hlow, getBufferPercent,
      eq_self_iff_true, if_true, add_zero, h10]
    norm_num
  have hclaim : claimedLegacyFeeAtZeroMetric 200 (15 / 10) = 315 := by
    have h300 : truncRat (((200 : Int) : ℚ) * (15 / 10)) = 300 := by
      have h : (((200 : Int) : ℚ) * (15 / 10)) = ((300 : Int) : ℚ) := by
        push_cast; norm_num
      rw [h, truncRat_intCast]
    have h15 : truncRat (((300 : Int) : ℚ) * (5 / 100)) = 15 := by
      have h : (((300 : Int) : ℚ) * (5 / 100)) = ((15 : Int) : ℚ) := by
        push_cast; norm_num
      rw [h, truncRat_intCast]
    simp only [claimedLegacyFeeAtZeroMetric, h300, h15]
    norm_num
  refine ⟨hmodel, hclaim, ?_⟩
  rw [hmodel, hclaim]
  simp

/-- The sender-lookup loop misses exactly when the sender is not among the
loaded addresses. -/
theorem findSenderIdx_eq_none {sender : Nat} :
    ∀ {addresses : List Nat},
      findSenderIdx addresses sender = none ↔ sender ∉ addresses := by
  intro addresses
  induction addresses with
  | nil => simp [findSenderIdx]
  | cons a rest ih =>
    by_cases h : a = sender
    · simp [findSenderIdx, h]
    · have h' : ¬ sender = a := fun he => h he.symm
      simp [findSenderIdx, h, Option.map_eq_none, ih, List.mem_cons, h']

/-- A successful sender lookup returns an in-range index holding the
sender's address. -/
theorem findSenderIdx_spec {sender : Nat} :
    ∀ {addresses : List Nat} {j : Nat},
      findSenderIdx addresses sender = some j →
      j < addresses.length ∧ addresses.getD j 0 = sender := by
  intro addresses
  induction addresses with
  | nil => intro j h; simp [findSenderIdx] at h
  | cons a rest ih =>
    intro j h
    by_cases ha : a = sender
    · simp [findSenderIdx, ha] at h
      subst h
      simp [ha]
    · simp [findSenderIdx, ha] at h
      obtain ⟨j', hj', rfl⟩ := h
      obtain ⟨hlt, hget⟩ := ih hj'
      constructor
      · simpa using Nat.succ_lt_succ hlt
      · simpa using hget

/-- The client construction invariant: `Addresses` and `PrivateKeys` are
parallel arrays, the i-th address being the i-th key's address. -/
def keysConsistent (addrOfKey : Nat → Nat) (client : BumpClient) : Prop :=
  client.privateKeys.length = client.addresses.length ∧
  ∀ i, i < client.addresses.length →
    addrOfKey (client.privateKeys.getD i 0) = client.addresses.getD i 0

/-- C1: whenever `bumpGasOnTimeout` adopts a replacement transaction, that
replacement carries the pending transaction's nonce, to, value, data and gas
limit unchanged, its fees are exactly the bump strategy applied to the old
fee fields (gasPrice for legacy; gasFeeCap and gasTipCap for dynamic-fee),
and it is signed by the key whose address is the recovered sender — the same
sender as the original (given the client's parallel address/key arrays). -/
theorem claim_C1 (addrOfKey : Nat → Nat) (client : BumpClient)
    (pendingCheck : Except String Bool) (sendResult : SignedTx → Option String)
    (tx r : SignedTx)
    (hkeys : keysConsistent addrOfKey client)
    (hsucc : bumpGasOnTimeout addrOfKey client pendingCheck sendResult tx =
      BumpOutcome.success r) :
    r.nonce = tx.nonce ∧ r.toAddr = tx.toAddr ∧ r.value = tx.value ∧
    r.gas = tx.gas ∧ r.data = tx.data ∧
    bumpFees client.gasBumpStrategyFn tx.fees = some r.fees ∧
    addrOfKey r.signedBy = addrOfKey tx.signedBy := by
  obtain ⟨hlen, hcons⟩ := hkeys
  unfold bumpGasOnTimeout at hsucc
  cases pendingCheck with
  | error e => simp at hsucc
  | ok isPending =>
    cases isPending with
    | false => simp at hsucc
    | true =>
      simp only [Bool.not_true, Bool.false_eq_true, if_false, ite_false] at hsucc
      cases hfind : findSenderIdx client.addresses (addrOfKey tx.signedBy) with
      | none => rw [hfind] at hsucc; simp at hsucc
      | some j =>
        rw [hfind] at hsucc
        obtain ⟨hjlt, hjget⟩ := findSenderIdx_spec hfind
        have hkey : addrOfKey (client.privateKeys.getD j 0) = addrOfKey tx.signedBy := by
          rw [hcons j hjlt, hjget]
        cases hfees : tx.fees with
        | legacy gasPrice =>
          rw [hfees] at hsucc
          dsimp only at hsucc
          cases hsend : sendResult
              { tx with fees := FeeFields.legacy (client.gasBumpStrategyFn gasPrice),
                        signedBy := client.privateKeys.getD j 0 } with
          | some e => rw [hsend] at hsucc; simp at hsucc
          | none =>
            rw [hsend] at hsucc
            simp only [BumpOutcome.success.injEq] at hsucc
            subst hsucc
            refine ⟨rfl, rfl, rfl, rfl, rfl, by simp [bumpFees, hfees], ?_⟩
            simpa using hkey
        | dynamic gasFeeCap gasTipCap =>
          rw [hfees] at hsucc
          dsimp only at hsucc
          cases hsend : sendResult
              { tx with fees := FeeFields.dynamic (client.gasBumpStrategyFn gasFeeCap)
                          (client.gasBumpStrategyFn gasTipCap),
                        signedBy := client.privateKeys.getD j 0 } with
          | some e => rw [hsend] at hsucc; simp at hsucc
          | none =>
            rw [hsend] at hsucc
            simp only [BumpOutcome.success.injEq] at hsucc
            subst hsucc
            refine ⟨rfl, rfl, rfl, rfl, rfl, by simp [bumpFees, hfees], ?_⟩
            simpa using hkey
        | other typeCode =>
          rw [hfees] at hsucc
          simp at hsucc

/-- C2: if the node rejects the re-signed replacement, `bumpGasOnTimeout`
returns the original transaction unchanged together with the error (so the
next polling iteration still watches the original hash); a replacement is
returned only when its send was accepted. -/
theorem claim_C2 (addrOfKey : Nat → Nat) (client : BumpClient)
    (pendingCheck : Except String Bool) (sendResult : SignedTx → Option String)
    (tx : SignedTx) :
    (∀ t e, bumpGasOnTimeout addrOfKey client pendingCheck sendResult tx =
        BumpOutcome.sendRejected t e → t = tx) ∧
    (∀ r, bumpGasOnTimeout addrOfKey client pendingCheck sendResult tx =
        BumpOutcome.success r → sendResult r = none) := by
  unfold bumpGasOnTimeout
  cases pendingCheck with
  | error e =>
    exact ⟨fun t e' h => by simp at h, fun r h => by simp at h⟩
  | ok isPending =>
    cases isPending with
    | false =>
      exact ⟨fun t e' h => by simp at h, fun r h => by simp at h⟩
    | true =>
      simp only [Bool.not_true, Bool.false_eq_true, if_false]
      cases hfind : findSenderIdx client.addresses (addrOfKey tx.signedBy) with
      | none =>
        exact ⟨fun t e' h => by simp at h, fun r h => by simp at h⟩
      | some j =>
        cases hfees : tx.fees with
        | legacy gasPrice =>
          cases hsend : sendResult
              { tx with fees := FeeFields.legacy (client.gasBumpStrategyFn gasPrice),
                        signedBy := client.privateKeys.getD j 0 } with
          | some e =>
            refine ⟨fun t e' h => ?_, fun r h => ?_⟩
            · dsimp only at h
              rw [hsend] at h
              simp only [BumpOutcome.sendRejected.injEq] at h
              exact h.1.symm
            · dsimp only at h
              rw [hsend] at h
              simp at h
          | none =>
            refine ⟨fun t e' h => ?_, fun r h => ?_⟩
            · dsimp only at h
              rw [hsend] at h
              simp at h
            · dsimp only at h
              rw [hsend] at h
              simp only [BumpOutcome.success.injEq] at h
              rw [← h]
              exact hsend
        | dynamic gasFeeCap gasTipCap =>
          cases hsend : sendResult
              { tx with fees := FeeFields.dynamic (client.gasBumpStrategyFn gasFeeCap)
                          (client.gasBumpStrategyFn gasTipCap),
                        signedBy := client.privateKeys.getD j 0 } with
          | some e =>
            refine ⟨fun t e' h => ?_, fun r h => ?_⟩
            · dsimp only at h
              rw [hsend] at h
              simp only [BumpOutcome.sendRejected.injEq] at h
              exact h.1.symm
            · dsimp only at h
              rw [hsend] at h
              simp at h
          | none =>
            refine ⟨fun t e' h => ?_, fun r h => ?_⟩
            · dsimp only at h
              rw [hsend] at h
              simp at h
            · dsimp only at h
              rw [hsend] at h
              simp only [BumpOutcome.success.injEq] at h
              rw [← h]
              exact hsend
        | other typeCode =>
          exact ⟨fun t e' h => by simp at h, fun r h => by simp at h⟩

/-- C8: for a still-pending transaction, bumping fails without sending
anything (the outcome does not depend on the send function, which the failure
branch never consults) when the transaction's type is neither legacy nor
dynamic-fee — with the "unsupported tx type" error — and likewise when the
recovered sender is not among the client's loaded key addresses. -/
theorem claim_C8 (addrOfKey : Nat → Nat) (client : BumpClient)
    (sendResult : SignedTx → Option String) (tx : SignedTx) :
    (∀ typeCode, tx.fees = FeeFields.other typeCode →
      addrOfKey tx.signedBy ∈ client.addresses →
      bumpGasOnTimeout addrOfKey client (Except.ok true) sendResult tx =
        BumpOutcome.failure ("unsupported tx type " ++ toString typeCode)) ∧
    (addrOfKey tx.signedBy ∉ client.addresses →
      bumpGasOnTimeout addrOfKey client (Except.ok true) sendResult tx =
        BumpOutcome.failure ("sender address '" ++ toString (addrOfKey tx.signedBy)
          ++ "' not found in loaded private keys")) := by
  constructor
  · intro typeCode hfees hmem
    have hne : findSenderIdx client.addresses (addrOfKey tx.signedBy) ≠ none := by
      rw [Ne, findSenderIdx_eq_none]
      simpa using hmem
    obtain ⟨j, hj⟩ := Option.ne_none_iff_exists'.mp hne
    unfold bumpGasOnTimeout
    simp only [Bool.not_true, Bool.false_eq_true, if_false]
    rw [hj, hfees]
  · intro hnot
    have h0 : findSenderIdx client.addresses (addrOfKey tx.signedBy) = none :=
      findSenderIdx_eq_none.mpr hnot
    unfold bumpGasOnTimeout
    simp only [Bool.not_true, Bool.false_eq_true, if_false]
    rw [h0]

/-- Concrete client for the C1 witness. -/
def bumpClientW : BumpClient :=
  { addresses := [7], privateKeys := [7], gasBumpStrategyFn := fun g => g * 2 }

/-- Concrete pending legacy transaction for the C1 witness. -/
def bumpTxW : SignedTx :=
  { nonce := 3, toAddr := some 9, value := 5, gas := 21000, data := [1, 2],
    fees := FeeFields.legacy 40, signedBy := 7 }

/-- The replacement `bumpGasOnTimeout` produces for `bumpTxW`. -/
def bumpTxW' : SignedTx :=
  { nonce := 3, toAddr := some 9, value := 5, gas := 21000, data := [1, 2],
    fees := FeeFields.legacy 80, signedBy := 7 }

/-- C1 witness: a concrete legacy bump with strategy ×2. -/
theorem claim_C1_witness :
    bumpTxW'.nonce = bumpTxW.nonce ∧ bumpTxW'.toAddr = bumpTxW.toAddr ∧
    bumpTxW'.value = bumpTxW.value ∧ bumpTxW'.gas = bumpTxW.gas ∧
    bumpTxW'.data = bumpTxW.data ∧
    bumpFees bumpClientW.gasBumpStrategyFn bumpTxW.fees = some bumpTxW'.fees ∧
    (fun k => k) bumpTxW'.signedBy = (fun k => k) bumpTxW.signedBy :=
  claim_C1 (fun k => k) bumpClientW (Except.ok true) (fun _ => none)
    bumpTxW bumpTxW'
    (by constructor
        · decide
        · decide)
    (by decide)

/-- The (frequency, block number) order the eviction loop minimises:
strictly smaller frequency, or equal frequency and no larger block number. -/
def lexLe (a b : Nat × Nat) : Prop :=
  a.1 < b.1 ∨ (a.1 = b.1 ∧ a.2 ≤ b.2)

theorem lexLe_refl (a : Nat × Nat) : lexLe a a := Or.inr ⟨rfl, le_refl _⟩

theorem lexLe_trans {a b c : Nat × Nat} (h1 : lexLe a b) (h2 : lexLe b c) :
    lexLe a c := by
  unfold lexLe at *
  omega

/-- One `evict` loop step from a candidate accumulator `(a, b, b)` (an
accumulator that already holds some entry's data, or the result of the first
step): the entry replaces the candidate exactly when it is strictly smaller
in `lexLe`. -/
theorem evictFold_cand (a b : Nat) (e : CacheEntry) :
    evictFold (a, b, b) e =
      if e.freq < a ∨ (e.freq = a ∧ e.number < b) then (e.freq, e.number, e.number)
      else (a, b, b) := by
  unfold evictFold
  dsimp only
  by_cases h1 : e.freq < a
  · rw [if_pos h1, if_pos (Or.inl h1)]
  · rw [if_neg h1]
    by_cases h2 : e.freq = a ∧ e.number < b
    · rw [if_pos h2, if_pos (Or.inr h2), h2.1]
    · rw [if_neg h2, if_neg (fun hor => hor.elim h1 h2)]

/-- Folding the eviction step from a candidate accumulator yields a candidate
that is a `lexLe`-minimum of the initial candidate and all folded entries,
and is one of them. -/
theorem foldl_evictFold_cand (l : List CacheEntry) :
    ∀ (a b : Nat),
      ∃ a' b', l.foldl evictFold (a, b, b) = (a', b', b') ∧
        ((a' = a ∧ b' = b) ∨ ∃ e, e ∈ l ∧ a' = e.freq ∧ b' = e.number) ∧
        lexLe (a', b') (a, b) ∧
        ∀ e, e ∈ l → lexLe (a', b') (e.freq, e.number) := by
  induction l with
  | nil =>
    intro a b
    exact ⟨a, b, rfl, Or.inl ⟨rfl, rfl⟩, lexLe_refl _, by simp⟩
  | cons e t ih =>
    intro a b
    rw [List.foldl_cons, evictFold_cand]
    by_cases h : e.freq < a ∨ (e.freq = a ∧ e.number < b)
    · rw [if_pos h]
      have hstep : lexLe (e.freq, e.number) (a, b) := by
        unfold lexLe
        omega
      obtain ⟨a', b', hfold, horig, hle, hall⟩ := ih e.freq e.number
      refine ⟨a', b', hfold, ?_, lexLe_trans hle hstep, ?_⟩
      · rcases horig with ⟨h1, h2⟩ | ⟨e', he', h1, h2⟩
        · exact Or.inr ⟨e, List.mem_cons_self e t, h1, h2⟩
        · exact Or.inr ⟨e', List.mem_cons_of_mem _ he', h1, h2⟩
      · intro e' he'
        rcases List.mem_cons.mp he' with rfl | hm
        · exact hle
        · exact hall e' hm
    · rw [if_neg h]
      have hstep : lexLe (a, b) (e.freq, e.number) := by
        unfold lexLe
        omega
      obtain ⟨a', b', hfold, horig, hle, hall⟩ := ih a b
      refine ⟨a', b', hfold, ?_, hle, ?_⟩
      · rcases horig with h' | ⟨e', he', h1, h2⟩
        · exact Or.inl h'
        · exact Or.inr ⟨e', List.mem_cons_of_mem _ he', h1, h2⟩
      · intro e' he'
        rcases List.mem_cons.mp he' with rfl | hm
        · exact lexLe_trans hle hstep
        · exact hall e' hm

/-- When the cache is nonempty and every frequency is below Go's `maxInt`
(the loop's initial `leastFreq`), `evictTarget` is the block number of an
entry that minimises (frequency, block number) lexicographically — least
frequency, ties broken by lowest block number. -/
theorem evictTarget_spec (entries : List CacheEntry)
    (hne : entries ≠ []) (hb : ∀ e, e ∈ entries → e.freq < goMaxInt) :
    ∃ e, e ∈ entries ∧ e.number = evictTarget entries ∧
      ∀ e', e' ∈ entries → lexLe (e.freq, e.number) (e'.freq, e'.number) := by
  match entries, hne with
  | e0 :: t, _ =>
    have h0 : evictFold (goMaxInt, 0, goMaxUint64) e0 =
        (e0.freq, e0.number, e0.number) := by
      unfold evictFold
      dsimp only
      rw [if_pos (hb e0 (List.mem_cons_self e0 t))]
    unfold evictTarget
    rw [List.foldl_cons, h0]
    obtain ⟨a', b', hfold, horig, hle, hall⟩ := foldl_evictFold_cand t e0.freq e0.number
    rw [hfold]
    dsimp only
    rcases horig with ⟨h1, h2⟩ | ⟨e', he', h1, h2⟩
    · subst h1
      subst h2
      refine ⟨e0, List.mem_cons_self e0 t, rfl, ?_⟩
      intro e' he'
      rcases List.mem_cons.mp he' with rfl | hm
      · exact lexLe_refl _
      · exact hall e' hm
    · subst h1
      subst h2
      refine ⟨e', List.mem_cons_of_mem _ he', rfl, ?_⟩
      intro e'' he''
      rcases List.mem_cons.mp he'' with rfl | hm
      · exact hle
      · exact hall e'' hm

/-- Deleting a present key from a cache with distinct block numbers removes
exactly one entry. -/
theorem filter_ne_number_length (l : List CacheEntry) (k : Nat)
    (hnd : (l.map (fun e => e.number)).Nodup)
    (hmem : ∃ e, e ∈ l ∧ e.number = k) :
    (l.filter (fun e => e.number != k)).length + 1 = l.length := by
  induction l with
  | nil =>
    obtain ⟨e, he, _⟩ := hmem
    simp at he
  | cons h t ih =>
    rw [List.map_cons, List.nodup_cons] at hnd
    obtain ⟨hh, ht⟩ := hnd
    by_cases hk : h.number = k
    · have hfil : t.filter (fun e => e.number != k) = t := by
        apply List.filter_eq_self.mpr
        intro e he
        have hne : e.number ≠ k := by
          intro hek
          exact hh (List.mem_map.mpr ⟨e, he, by rw [hek, hk]⟩)
        simpa using hne
      simp only [List.filter_cons, hk, bne_self_eq_false, Bool.false_eq_true,
        if_false, hfil]
      simp
    · have hpred : (h.number != k) = true := by simpa using hk
      have hmem' : ∃ e, e ∈ t ∧ e.number = k := by
        obtain ⟨e, he, hek⟩ := hmem
        rcases List.mem_cons.mp he with rfl | hm
        · exact absurd hek hk
        · exact ⟨e, hm, hek⟩
      have hrec := ih ht hmem'
      simp only [List.filter_cons, hpred, if_true, List.length_cons]
      omega

/-- A cache update that preserves each entry's block number preserves the
key list. -/
theorem map_number_image (l : List CacheEntry) (f : CacheEntry → CacheEntry)
    (hf : ∀ e, e ∈ l → (f e).number = e.number) :
    (l.map f).map (fun e => e.number) = l.map (fun e => e.number) := by
  rw [List.map_map]
  exact List.map_congr_left (fun e he => hf e he)

/-- The invariant a well-formed cache maintains: distinct block numbers, at
most `capacity` entries, every frequency at most `b`. -/
def CacheWf (c : LFUBlockCache) (b : Nat) : Prop :=
  (c.cache.map (fun e => e.number)).Nodup ∧
  c.cache.length ≤ c.capacity ∧
  ∀ e, e ∈ c.cache → e.freq ≤ b

/-- `Get` preserves the cache invariant (hits only bump one frequency). -/
theorem Get_wf (c : LFUBlockCache) (b n : Nat) (hwf : CacheWf c b) :
    CacheWf ((c.Get n).1) (b + 1) := by
  obtain ⟨hnd, hlen, hfreq⟩ := hwf
  unfold LFUBlockCache.Get
  split_ifs with h
  · refine ⟨?_, ?_, ?_⟩
    · dsimp only
      rw [map_number_image]
      · exact hnd
      · intro e _
        split_ifs with he
        · rfl
        · rfl
    · dsimp only
      rw [List.length_map]
      exact hlen
    · intro e he
      dsimp only at he
      obtain ⟨e0, he0, rfl⟩ := List.mem_map.mp he
      split_ifs with h0
      · exact Nat.succ_le_succ (hfreq e0 he0)
      · exact le_trans (hfreq e0 he0) (Nat.le_succ b)
  · exact ⟨hnd, hlen, fun e he => le_trans (hfreq e he) (Nat.le_succ b)⟩

/-- `Set` preserves the cache invariant when the capacity is at least 1:
a refresh keeps the size, a miss below capacity grows within it, and a miss
on a full cache evicts exactly one entry before inserting. -/
theorem Set_wf (c : LFUBlockCache) (b n : Nat) (hcap : 1 ≤ c.capacity)
    (hwf : CacheWf c b) (hb : b < goMaxInt) :
    CacheWf (c.Set n) (b + 1) := by
  obtain ⟨hnd, hlen, hfreq⟩ := hwf
  unfold LFUBlockCache.Set LFUBlockCache.evict
  split_ifs with hfound hfull
  · -- refresh of an existing entry
    refine ⟨?_, ?_, ?_⟩
    · dsimp only
      rw [map_number_image]
      · exact hnd
      · intro e _
        split_ifs with he
        · have hen : e.number = n := by simpa using he
          exact hen.symm
        · rfl
    · dsimp only
      rw [List.length_map]
      exact hlen
    · intro e he
      dsimp only at he
      obtain ⟨e0, he0, rfl⟩ := List.mem_map.mp he
      split_ifs with h0
      · exact Nat.succ_le_succ (hfreq e0 he0)
      · exact le_trans (hfreq e0 he0) (Nat.le_succ b)
  · -- miss on a full cache: evict, then insert
    have hnotmem : ∀ e, e ∈ c.cache → e.number ≠ n := by
      intro e he hen
      exact hfound (List.any_eq_true.mpr ⟨e, he, by simpa using hen⟩)
    have hne : c.cache ≠ [] := by
      intro h0
      rw [h0] at hfull
      simp at hfull
      omega
    have hblt : ∀ e, e ∈ c.cache → e.freq < goMaxInt :=
      fun e he => lt_of_le_of_lt (hfreq e he) hb
    obtain ⟨e0, he0, he0n, _⟩ := evictTarget_spec c.cache hne hblt
    have hflen := filter_ne_number_length c.cache (evictTarget c.cache) hnd
      ⟨e0, he0, he0n⟩
    have hsub : ((c.cache.filter (fun e => e.number != evictTarget c.cache)).map
        (fun e => e.number)).Sublist (c.cache.map (fun e => e.number)) :=
      (List.filter_sublist _).map _
    refine ⟨?_, ?_, ?_⟩
    · dsimp only
      rw [List.map_append]
      apply List.Nodup.append
      · exact hsub.nodup hnd
      · simp
      · intro x hx hx'
        simp only [List.map_cons, List.map_nil, List.mem_singleton] at hx'
        subst hx'
        obtain ⟨e, he, hen⟩ := List.mem_map.mp hx
        exact hnotmem e (List.mem_of_mem_filter he) hen
    · dsimp only
      rw [List.length_append]
      simp only [List.length_singleton]
      omega
    · intro e he
      dsimp only at he
      rcases List.mem_append.mp he with hm | hm
      · exact le_trans (hfreq e (List.mem_of_mem_filter hm)) (Nat.le_succ b)
      · simp only [List.mem_singleton] at hm
        subst hm
        exact Nat.succ_le_succ (Nat.zero_le b)
  · -- miss with spare room: plain insert
    have hnotmem : ∀ e, e ∈ c.cache → e.number ≠ n := by
      intro e he hen
      exact hfound (List.any_eq_true.mpr ⟨e, he, by simpa using hen⟩)
    refine ⟨?_, ?_, ?_⟩
    · dsimp only
      rw [List.map_append]
      apply List.Nodup.append
      · exact hnd
      · simp
      · intro x hx hx'
        simp only [List.map_cons, List.map_nil, List.mem_singleton] at hx'
        subst hx'
        obtain ⟨e, he, hen⟩ := List.mem_map.mp hx
        exact hnotmem e he hen
    · dsimp only
      rw [List.length_append]
      simp only [List.length_singleton]
      omega
    · intro e he
      dsimp only at he
      rcases List.mem_append.mp he with hm | hm
      · exact le_trans (hfreq e hm) (Nat.le_succ b)
      · simp only [List.mem_singleton] at hm
        subst hm
        exact Nat.succ_le_succ (Nat.zero_le b)

theorem applyCacheOp_capacity (c : LFUBlockCache) (op : CacheOp) :
    (applyCacheOp c op).capacity = c.capacity := by
  cases op with
  | get n =>
    simp only [applyCacheOp]
    unfold LFUBlockCache.Get
    split_ifs <;> rfl
  | set n =>
    simp only [applyCacheOp]
    unfold LFUBlockCache.Set LFUBlockCache.evict
    split_ifs <;> rfl

theorem applyCacheOp_wf (c : LFUBlockCache) (b : Nat) (op : CacheOp)
    (hcap : 1 ≤ c.capacity) (hwf : CacheWf c b) (hb : b < goMaxInt) :
    CacheWf (applyCacheOp c op) (b + 1) := by
  cases op with
  | get n => exact Get_wf c b n hwf
  | set n => exact Set_wf c b n hcap hwf hb

/-- Any sequence of cache operations preserves the invariant, frequencies
growing by at most one per operation. -/
theorem runCacheOps_wf (ops : List CacheOp) :
    ∀ (c : LFUBlockCache) (b : Nat), 1 ≤ c.capacity → CacheWf c b →
      b + ops.length < goMaxInt → CacheWf (runCacheOps c ops) (b + ops.length) := by
  induction ops with
  | nil =>
    intro c b _ hwf _
    simpa [runCacheOps] using hwf
  | cons op t ih =>
    intro c b hcap hwf hb
    have hstep := applyCacheOp_wf c b op hcap hwf (by simp at hb; omega)
    have hcap' : 1 ≤ (applyCacheOp c op).capacity := by
      rw [applyCacheOp_capacity]
      exact hcap
    have := ih (applyCacheOp c op) (b + 1) hcap' hstep (by simp at hb; omega)
    have heq : runCacheOps c (op :: t) = runCacheOps (applyCacheOp c op) t := by
      simp [runCacheOps]
    rw [heq]
    have harith : b + (op :: t).length = (b + 1) + t.length := by simp; omega
    rw [harith]
    exact this

/-- C6 amended: for every operation sequence on a cache of capacity at least
1 (and fewer than 2^63 - 1 operations, enough for Go's int frequencies), the
cache never holds more entries than its capacity; and when `Set` inserts an
uncached block into a full cache, the entry it evicts (and the only one) has
the minimum frequency, ties broken by the lowest block number.  The capacity
bound fails for capacity 0 (see the counterexample), where a Set leaves one
entry in the cache. -/
theorem claim_C6_amended :
    (∀ (cap : Nat) (ops : List CacheOp), 1 ≤ cap → ops.length < goMaxInt →
      (runCacheOps (NewLFUBlockCache cap) ops).cache.length ≤ cap) ∧
    (∀ (c : LFUBlockCache) (n : Nat),
      (∀ e, e ∈ c.cache → e.freq < goMaxInt) →
      c.cache.any (fun e => e.number == n) = false →
      1 ≤ c.capacity → c.capacity ≤ c.cache.length →
      ∃ e, e ∈ c.cache ∧
        (∀ e', e' ∈ c.cache → lexLe (e.freq, e.number) (e'.freq, e'.number)) ∧
        (∀ e', e' ∈ (c.Set n).cache → e'.number ≠ e.number) ∧
        (∀ e', e' ∈ c.cache → e'.number ≠ e.number → e' ∈ (c.Set n).cache)) := by
  constructor
  · intro cap ops hcap hops
    have hwf0 : CacheWf (NewLFUBlockCache cap) 0 := by
      refine ⟨by simp [NewLFUBlockCache], by simp [NewLFUBlockCache], ?_⟩
      intro e he
      simp [NewLFUBlockCache] at he
    have := runCacheOps_wf ops (NewLFUBlockCache cap) 0 hcap hwf0 (by omega)
    have hcapeq : (runCacheOps (NewLFUBlockCache cap) ops).capacity = cap := by
      have hg : ∀ (l : List CacheOp) (c : LFUBlockCache),
          (runCacheOps c l).capacity = c.capacity := by
        intro l
        induction l with
        | nil => intro c; rfl
        | cons op t ih =>
          intro c
          have : runCacheOps c (op :: t) = runCacheOps (applyCacheOp c op) t := by
            simp [runCacheOps]
          rw [this, ih, applyCacheOp_capacity]
      exact hg ops (NewLFUBlockCache cap)
    have hlen := this.2.1
    rw [hcapeq] at hlen
    exact hlen
  · intro c n hblt hany hcap hfull
    have hnotmem : ∀ e, e ∈ c.cache → e.number ≠ n := by
      intro e he hen
      have : c.cache.any (fun e => e.number == n) = true :=
        List.any_eq_true.mpr ⟨e, he, by simpa using hen⟩
      rw [hany] at this
      exact Bool.false_ne_true this
    have hne : c.cache ≠ [] := by
      intro h0
      rw [h0] at hfull
      simp at hfull
      omega
    obtain ⟨e0, he0, he0n, he0min⟩ := evictTarget_spec c.cache hne hblt
    have hset : (c.Set n).cache =
        (c.cache.filter (fun e => e.number != evictTarget c.cache)) ++
          [{ number := n, freq := 1 }] := by
      unfold LFUBlockCache.Set LFUBlockCache.evict
      rw [if_neg (by rw [hany]; exact Bool.false_ne_true), if_pos hfull]
    refine ⟨e0, he0, he0min, ?_, ?_⟩
    · intro e' he'
      rw [hset] at he'
      rcases List.mem_append.mp he' with hm | hm
      · have := List.of_mem_filter hm
        intro hcontra
        rw [he0n] at hcontra
        simp [hcontra] at this
      · simp only [List.mem_singleton] at hm
        subst hm
        intro hcontra
        exact hnotmem e0 he0 hcontra.symm
    · intro e' he' hne'
      rw [hset]
      apply List.mem_append.mpr
      left
      apply List.mem_filter.mpr
      refine ⟨he', ?_⟩
      rw [← he0n]
      simpa using hne'

/-- C6, counterexample: on a cache created with capacity 0, inserting one
block leaves one entry — `evict` on the empty map deletes nothing (its
default `evictKey` 0 is absent) and the insert then exceeds the capacity, so
the claimed bound `entries ≤ capacity` fails for every sequence only when
capacity ≥ 1. -/
theorem claim_C6_counterexample :
    ¬ ((runCacheOps (NewLFUBlockCache 0) [CacheOp.set 5]).cache.length ≤
        (NewLFUBlockCache 0).capacity) := by decide
